import Mathlib

/-!
Verification of the fanout chunk-key encoding library `zarr_fanout_cke`.

The development shallowly embeds the two Python modules of the repository:

* `src/zarr_fanout_cke/fanout_cke.py`: the dataclass `FanoutChunkKeyEncoding`
  with configuration normalization in `__post_init__`, the cached property
  `decimal_len`, `_fanout_coord` and `encode_chunk_key`;
* `src/zarr_fanout_cke/__init__.py`: an older variant of the same class,
  embedded here as `InitFanoutChunkKeyEncoding`.

Python's unbounded non-negative integers are modelled as `Nat`, signed ones
as `Int`, strings as `String`.  The `while coord > 0` loop of `_fanout_coord`
is embedded with an explicit iteration budget (`fuel`); the initial coordinate
value is a provably sufficient budget because the loop variable strictly
decreases (see the termination theorem for claim C7).
-/

namespace ZarrFanoutCke

/-- Python `str(n)` for a non-negative integer: the decimal representation. -/
def pyStr (n : Nat) : String := Nat.repr n

/-- Python `len(str(n))` for a non-negative integer. -/
def pyStrLen (n : Nat) : Nat := (pyStr n).length

/-- Python `str(i)` for an arbitrary integer. -/
def pyStrInt (i : Int) : String := Int.repr i

/-- Numeric value of one decimal digit character. -/
def decDigitVal (c : Char) : Nat := c.toNat - Char.toNat '0'

/-- Numeric value of a most-significant-first decimal character list. -/
def parseDigits (cs : List Char) : Nat :=
  cs.foldl (fun a c => 10 * a + decDigitVal c) 0

/-- Numeric value of a decimal string. -/
def parseDecimal (s : String) : Nat := parseDigits s.data

/-- The decimal character representation of `n`, most significant digit first,
expressed through Mathlib's `Nat.digits`.  This is proved equal to the
character data of `pyStr n`. -/
def decChars (n : Nat) : List Char :=
  if n = 0 then ['0'] else ((Nat.digits 10 n).map Nat.digitChar).reverse

theorem decChars_small (n : Nat) (h : n ≠ 0) (h10 : n / 10 = 0) :
    decChars n = [Nat.digitChar n] := by
  have hlt : n < 10 := by omega
  rw [decChars, if_neg h, Nat.digits_def' (by norm_num) (Nat.pos_of_ne_zero h), h10,
    Nat.digits_zero]
  simp [Nat.mod_eq_of_lt hlt]

theorem decChars_step (n : Nat) (h : n / 10 ≠ 0) :
    decChars n = decChars (n / 10) ++ [Nat.digitChar (n % 10)] := by
  have hn : n ≠ 0 := by omega
  rw [decChars, if_neg hn, Nat.digits_def' (by norm_num) (Nat.pos_of_ne_zero hn),
    List.map_cons, List.reverse_cons, decChars, if_neg h]

theorem toDigitsCore_eq_decChars :
    ∀ (fuel n : Nat) (ds : List Char), n < fuel →
      Nat.toDigitsCore 10 fuel n ds = decChars n ++ ds := by
  intro fuel
  induction fuel with
  | zero => intro n ds h; omega
  | succ fuel ih =>
    intro n ds _h
    simp only [Nat.toDigitsCore]
    by_cases h10 : n / 10 = 0
    · rw [if_pos h10]
      by_cases hn : n = 0
      · subst hn; rfl
      · rw [decChars_small n hn h10, Nat.mod_eq_of_lt (by omega)]
        rfl
    · rw [if_neg h10, ih (n / 10) _ (by omega), decChars_step n h10, List.append_assoc]
      rfl

theorem pyStr_data (n : Nat) : (pyStr n).data = decChars n := by
  have h := toDigitsCore_eq_decChars (n + 1) n [] (Nat.lt_succ_self n)
  simp only [pyStr, Nat.repr, Nat.toDigits, h, List.append_nil, List.asString]

theorem pyStrLen_eq_log (n : Nat) : pyStrLen n = Nat.log 10 n + 1 := by
  have hlen : pyStrLen n = (pyStr n).data.length := rfl
  rw [hlen, pyStr_data]
  by_cases hn : n = 0
  · subst hn; simp [decChars]
  · rw [decChars, if_neg hn]
    simp [Nat.digits_len 10 n (by norm_num) hn]

theorem digitChar_isDigit : ∀ d : Nat, d < 10 → (Nat.digitChar d).isDigit = true := by
  decide

theorem decDigitVal_digitChar : ∀ d : Nat, d < 10 → decDigitVal (Nat.digitChar d) = d := by
  decide

theorem decChars_isDigit (n : Nat) : ∀ c ∈ decChars n, c.isDigit = true := by
  intro c hc
  rw [decChars] at hc
  by_cases hn : n = 0
  · rw [if_pos hn] at hc
    simp only [List.mem_singleton] at hc
    subst hc; decide
  · rw [if_neg hn, List.mem_reverse, List.mem_map] at hc
    obtain ⟨d, hd, rfl⟩ := hc
    exact digitChar_isDigit d (Nat.digits_lt_base (by norm_num) hd)

theorem parseDigits_decChars (n : Nat) : parseDigits (decChars n) = n := by
  induction n using Nat.strong_induction_on with
  | _ n ih =>
    by_cases hn : n = 0
    · subst hn; decide
    · by_cases h10 : n / 10 = 0
      · rw [decChars_small n hn h10]
        show 10 * 0 + decDigitVal (Nat.digitChar n) = n
        rw [decDigitVal_digitChar n (by omega)]
        omega
      · rw [decChars_step n h10, parseDigits, List.foldl_append]
        show 10 * parseDigits (decChars (n / 10)) + decDigitVal (Nat.digitChar (n % 10)) = n
        rw [ih (n / 10) (by omega), decDigitVal_digitChar (n % 10) (by omega)]
        omega

theorem parseDecimal_pyStr (n : Nat) : parseDecimal (pyStr n) = n := by
  rw [parseDecimal, pyStr_data, parseDigits_decChars]

theorem pyStr_injective {a b : Nat} (h : pyStr a = pyStr b) : a = b := by
  have h2 := congrArg parseDecimal h
  rwa [parseDecimal_pyStr, parseDecimal_pyStr] at h2

theorem pyStr_isDigit (n : Nat) : ∀ c ∈ (pyStr n).data, c.isDigit = true := by
  rw [pyStr_data]; exact decChars_isDigit n

theorem pyStrLen_le (v d : Nat) (hd : 1 ≤ d) (hv : v < 10 ^ d) : pyStrLen v ≤ d := by
  rw [pyStrLen_eq_log]
  by_cases hv0 : v = 0
  · subst hv0; simp; omega
  · have h2 := (Nat.lt_pow_iff_log_lt (by norm_num) hv0).mp hv
    omega

/-- Python `"0" * k`. -/
def pyZeros (k : Nat) : String := String.mk (List.replicate k '0')

/-- Python zero-padding format of minimum width `width` applied to a
non-negative integer `v` (the format spec used in `_fanout_coord`). -/
def pyZeroPad (width v : Nat) : String := pyZeros (width - pyStrLen v) ++ pyStr v

/-- Python `sep.join(parts)`. -/
def strJoin (sep : String) : List String → String
  | [] => ""
  | [part] => part
  | part :: parts => part ++ sep ++ strJoin sep parts

/-- The dataclass `FanoutChunkKeyEncoding` of `fanout_cke.py`: a frozen
dataclass whose single field is `max_children` (after `__post_init__` it
holds the normalized, power-of-10 fanout bound). -/
structure FanoutChunkKeyEncoding where
  max_children : Nat
deriving DecidableEq

/-- The cached property `decimal_len` of `fanout_cke.py`. -/
def FanoutChunkKeyEncoding.decimal_len (self : FanoutChunkKeyEncoding) : Nat :=
  pyStrLen (self.max_children - 1)

/-- Dataclass construction of `fanout_cke.py`, i.e. `__init__` followed by
`__post_init__`: rejects `max_children < 100` with a `ValueError`, otherwise
floors `max_children` to a power of 10.  The returned `Bool` is the advisory
`UserWarning` flag, `true` exactly when the source calls `warnings.warn`. -/
def mkFanoutChunkKeyEncoding (max_children : Int) :
    Except String (FanoutChunkKeyEncoding × Bool) :=
  if max_children < 100 then
    .error "max_children must be at least 100."
  else
    let floored_max_children : Nat := 10 ^ (pyStrLen max_children.toNat - 1)
    .ok (⟨floored_max_children⟩, max_children != (floored_max_children : Int))

/-- The default value of the `max_children` field in `fanout_cke.py`. -/
def default_max_children : Int := 1000

/-- Construction with no arguments in `fanout_cke.py`. -/
def mkFanoutDefault : Except String (FanoutChunkKeyEncoding × Bool) :=
  mkFanoutChunkKeyEncoding default_max_children

/-- The `while coord > 0` loop of `_fanout_coord`, collecting the digit
groups least significant first exactly as the Python loop appends them.
`fuel` is an explicit iteration budget; since the loop variable strictly
decreases, the starting value is itself a sufficient budget (claim C7). -/
def fanoutLoop (mc dl : Nat) : Nat → Nat → List String
  | _, 0 => []
  | 0, _ + 1 => []
  | fuel + 1, n + 1 =>
      pyZeroPad dl ((n + 1) % mc) :: fanoutLoop mc dl fuel ((n + 1) / mc)

/-- The `while` loop of `_fanout_coord` run to completion on a non-negative
starting value `n`, least significant group first. -/
def fanout_nat (mc dl n : Nat) : List String := fanoutLoop mc dl n n

/-- `FanoutChunkKeyEncoding._fanout_coord` of `fanout_cke.py`.  A zero
coordinate yields the single all-zero group; otherwise the loop output is
reversed (the source reverses `parts`).  For a negative coordinate the loop
guard is immediately false, so the result is the empty list. -/
def FanoutChunkKeyEncoding.fanout_coord (self : FanoutChunkKeyEncoding) (coord : Int) :
    List String :=
  if coord = 0 then [pyZeros self.decimal_len]
  else (fanout_nat self.max_children self.decimal_len coord.toNat).reverse

/-- `FanoutChunkKeyEncoding.encode_chunk_key` of `fanout_cke.py`: start from
the list holding the literal `"c"`, for each coordinate append the depth
marker (the unpadded decimal of the group count minus one) and then the digit
groups, and finally join all parts with `"/"`. -/
def FanoutChunkKeyEncoding.encode_chunk_key (self : FanoutChunkKeyEncoding)
    (chunk_coords : List Int) : String :=
  let parts : List String :=
    chunk_coords.foldl
      (fun parts coord =>
        let coords := self.fanout_coord coord
        parts ++ [pyStrInt ((coords.length : Int) - 1)] ++ coords)
      ["c"]
  strJoin "/" parts

/-- The dataclass `FanoutChunkKeyEncoding` as defined in `__init__.py`:
it has no `__post_init__`, so any integer is stored unchanged and no
warning mechanism exists. -/
structure InitFanoutChunkKeyEncoding where
  max_children : Int
deriving DecidableEq

/-- Construction of the `__init__.py` dataclass: the supplied value is kept
as-is (no validation, no flooring, no advisory signal). -/
def mkInitFanout (max_children : Int) : InitFanoutChunkKeyEncoding :=
  ⟨max_children⟩

/-- The default value of the `max_children` field in `__init__.py`. -/
def init_default_max_children : Int := 1001

/-- Construction with no arguments in `__init__.py`. -/
def mkInitFanoutDefault : InitFanoutChunkKeyEncoding :=
  mkInitFanout init_default_max_children

/-- The serialized metadata shape of the persisted-metadata contract: the
encoding name plus an optional `max_children` configuration entry. -/
structure CkeMetadataDict where
  name : String
  configuration_max_children : Option Int
deriving DecidableEq

/-- Modelled from the spec: the `to_dict`-equivalent serialization is
inherited from the host storage library's `ChunkKeyEncoding` base class and
is absent from the repository source.  Per §6 of the spec it returns the
name `"fanout"` together with the configuration holding the normalized
`max_children` value. -/
def FanoutChunkKeyEncoding.to_dict (self : FanoutChunkKeyEncoding) : CkeMetadataDict :=
  ⟨"fanout", some (self.max_children : Int)⟩

/-- Modelled from the spec: the `from_dict`-equivalent constructor is
inherited from the host storage library and absent from the repository
source.  Per §6 of the spec it accepts the serialized shape with
`max_children` optional (defaulting to the component's default value) and
runs ordinary construction. -/
def fanout_from_dict (d : CkeMetadataDict) :
    Except String (FanoutChunkKeyEncoding × Bool) :=
  mkFanoutChunkKeyEncoding (d.configuration_max_children.getD default_max_children)

/-- A configuration is valid when ordinary construction can produce it. -/
def ValidConfig (cfg : FanoutChunkKeyEncoding) : Prop :=
  ∃ n w, mkFanoutChunkKeyEncoding n = .ok (cfg, w)

/-- One dimension's segment list as the spec words it: the depth marker
(the unpadded decimal of the group count minus one) followed by that
dimension's digit groups. -/
def dimSegments (cfg : FanoutChunkKeyEncoding) (coord : Int) : List String :=
  pyStrInt (((cfg.fanout_coord coord).length : Int) - 1) :: cfg.fanout_coord coord

/-- Assembly across dimensions as the spec words it: start with the literal
segment `"c"`, then for each dimension in input order the depth marker and
the digit groups, all joined with `"/"`. -/
def specAssemble (cfg : FanoutChunkKeyEncoding) (coords : List Int) : String :=
  strJoin "/" ("c" :: (coords.map (dimSegments cfg)).flatten)

/-- Decode a most-significant-first digit-group sequence back to the
coordinate component it represents: base-`mc` Horner evaluation of the
numeric values of the groups. -/
def decodeGroups (mc : Nat) (groups : List String) : Nat :=
  groups.foldl (fun a g => mc * a + parseDecimal g) 0

theorem parseDigits_replicate_zero (k : Nat) (cs : List Char) :
    parseDigits (List.replicate k '0' ++ cs) = parseDigits cs := by
  induction k with
  | zero => rfl
  | succ k ih =>
    rw [List.replicate_succ, List.cons_append]
    show parseDigits (List.replicate k '0' ++ cs) = parseDigits cs
    exact ih

theorem parseDecimal_pyZeroPad (width v : Nat) : parseDecimal (pyZeroPad width v) = v := by
  show parseDigits (List.replicate (width - pyStrLen v) '0' ++ (pyStr v).data) = v
  rw [parseDigits_replicate_zero]
  exact parseDecimal_pyStr v

theorem parseDecimal_pyZeros (k : Nat) : parseDecimal (pyZeros k) = 0 := by
  show parseDigits (List.replicate k '0') = 0
  rw [← List.append_nil (List.replicate k '0'), parseDigits_replicate_zero]
  rfl

theorem pyZeros_length (k : Nat) : (pyZeros k).length = k := by
  show (List.replicate k '0').length = k
  rw [List.length_replicate]

theorem pyZeroPad_length (width v : Nat) (h : pyStrLen v ≤ width) :
    (pyZeroPad width v).length = width := by
  show (List.replicate (width - pyStrLen v) '0' ++ (pyStr v).data).length = width
  rw [List.length_append, List.length_replicate]
  show width - pyStrLen v + pyStrLen v = width
  omega

theorem pyZeroPad_isDigit (width v : Nat) :
    ∀ c ∈ (pyZeroPad width v).data, c.isDigit = true := by
  intro c hc
  replace hc : c ∈ List.replicate (width - pyStrLen v) '0' ++ (pyStr v).data := hc
  rcases List.mem_append.mp hc with h | h
  · rw [List.eq_of_mem_replicate h]; decide
  · exact pyStr_isDigit v c h

theorem fanoutLoop_zero (mc dl fuel : Nat) : fanoutLoop mc dl fuel 0 = [] := by
  cases fuel <;> rfl

theorem fanoutLoop_fuel_eq (mc dl : Nat) (hmc : 2 ≤ mc) :
    ∀ fuel₁ fuel₂ n, n ≤ fuel₁ → n ≤ fuel₂ →
      fanoutLoop mc dl fuel₁ n = fanoutLoop mc dl fuel₂ n := by
  intro fuel₁
  induction fuel₁ with
  | zero =>
    intro fuel₂ n h₁ _h₂
    have hn : n = 0 := by omega
    subst hn
    rw [fanoutLoop_zero, fanoutLoop_zero]
  | succ fuel₁ ih =>
    intro fuel₂ n h₁ h₂
    cases n with
    | zero => rw [fanoutLoop_zero, fanoutLoop_zero]
    | succ m =>
      cases fuel₂ with
      | zero => omega
      | succ fuel₂' =>
        have hq : (m + 1) / mc < m + 1 := Nat.div_lt_self (Nat.succ_pos m) hmc
        show pyZeroPad dl ((m + 1) % mc) :: fanoutLoop mc dl fuel₁ ((m + 1) / mc) =
          pyZeroPad dl ((m + 1) % mc) :: fanoutLoop mc dl fuel₂' ((m + 1) / mc)
        exact congrArg _ (ih fuel₂' ((m + 1) / mc) (by omega) (by omega))

theorem fanout_nat_succ (mc dl : Nat) (hmc : 2 ≤ mc) (n : Nat) (hn : n ≠ 0) :
    fanout_nat mc dl n = pyZeroPad dl (n % mc) :: fanout_nat mc dl (n / mc) := by
  obtain ⟨m, rfl⟩ : ∃ m, n = m + 1 := ⟨n - 1, by omega⟩
  have hq : (m + 1) / mc < m + 1 := Nat.div_lt_self (Nat.succ_pos m) hmc
  show pyZeroPad dl ((m + 1) % mc) :: fanoutLoop mc dl m ((m + 1) / mc) =
    pyZeroPad dl ((m + 1) % mc) :: fanoutLoop mc dl ((m + 1) / mc) ((m + 1) / mc)
  exact congrArg _ (fanoutLoop_fuel_eq mc dl hmc m ((m + 1) / mc) ((m + 1) / mc)
    (by omega) (le_refl _))

theorem fanout_nat_ne_nil (mc dl : Nat) (hmc : 2 ≤ mc) (n : Nat) (hn : n ≠ 0) :
    fanout_nat mc dl n ≠ [] := by
  rw [fanout_nat_succ mc dl hmc n hn]
  simp

theorem decodeGroups_append_singleton (mc : Nat) (gs : List String) (g : String) :
    decodeGroups mc (gs ++ [g]) = mc * decodeGroups mc gs + parseDecimal g := by
  rw [decodeGroups, List.foldl_append]
  rfl

theorem decode_fanout_nat (mc dl : Nat) (hmc : 2 ≤ mc) (n : Nat) :
    decodeGroups mc (fanout_nat mc dl n).reverse = n := by
  induction n using Nat.strong_induction_on with
  | _ n ih =>
    by_cases hn : n = 0
    · subst hn; rfl
    · rw [fanout_nat_succ mc dl hmc n hn, List.reverse_cons,
        decodeGroups_append_singleton,
        ih (n / mc) (Nat.div_lt_self (Nat.pos_of_ne_zero hn) hmc),
        parseDecimal_pyZeroPad]
      exact Nat.div_add_mod n mc

theorem fanout_nat_shape (mc dl : Nat) (hmc : 2 ≤ mc) (n : Nat) :
    ∀ g ∈ fanout_nat mc dl n, ∃ v, v < mc ∧ g = pyZeroPad dl v := by
  induction n using Nat.strong_induction_on with
  | _ n ih =>
    intro g hg
    by_cases hn : n = 0
    · subst hn; exact absurd hg (List.not_mem_nil g)
    · rw [fanout_nat_succ mc dl hmc n hn] at hg
      rcases List.mem_cons.mp hg with h | h
      · exact ⟨n % mc, Nat.mod_lt n (by omega), h⟩
      · exact ih (n / mc) (Nat.div_lt_self (Nat.pos_of_ne_zero hn) hmc) g h

theorem validConfig_inv (cfg : FanoutChunkKeyEncoding) (h : ValidConfig cfg) :
    cfg.max_children = 10 ^ cfg.decimal_len ∧ 2 ≤ cfg.decimal_len := by
  obtain ⟨n, w, hok⟩ := h
  rw [mkFanoutChunkKeyEncoding] at hok
  by_cases hlt : n < 100
  · rw [if_pos hlt] at hok
    exact Except.noConfusion hok
  · rw [if_neg hlt] at hok
    simp only [Except.ok.injEq, Prod.mk.injEq] at hok
    obtain ⟨hcfg, -⟩ := hok
    have hN : 100 ≤ n.toNat := by omega
    have hk2 : 2 ≤ Nat.log 10 n.toNat := by
      refine (Nat.pow_le_iff_le_log (by norm_num) (by omega)).mp ?_
      simpa using hN
    obtain ⟨e, he⟩ : ∃ e, Nat.log 10 n.toNat = e + 1 :=
      ⟨Nat.log 10 n.toNat - 1, by omega⟩
    have hmc : cfg.max_children = 10 ^ (e + 1) := by
      rw [← hcfg]
      show 10 ^ (pyStrLen n.toNat - 1) = 10 ^ (e + 1)
      rw [pyStrLen_eq_log, he]
      simp
    have hpos : 0 < (10 : Nat) ^ e := pow_pos (by norm_num) e
    have hlog : Nat.log 10 (10 ^ (e + 1) - 1) = e := by
      apply Nat.log_eq_of_pow_le_of_lt_pow
      · have hps : (10 : Nat) ^ (e + 1) = 10 ^ e * 10 := pow_succ 10 e
        omega
      · have hpos2 : 0 < (10 : Nat) ^ (e + 1) := pow_pos (by norm_num) (e + 1)
        omega
    have hdl : cfg.decimal_len = e + 1 := by
      rw [FanoutChunkKeyEncoding.decimal_len, hmc, pyStrLen_eq_log, hlog]
    constructor
    · rw [hdl, hmc]
    · omega

theorem validConfig_two_le (cfg : FanoutChunkKeyEncoding) (h : ValidConfig cfg) :
    2 ≤ cfg.max_children := by
  obtain ⟨hpow, hdl⟩ := validConfig_inv cfg h
  have h2 := Nat.pow_le_pow_right (show 0 < 10 by norm_num) hdl
  omega

theorem decode_fanout_coord (cfg : FanoutChunkKeyEncoding) (hv : ValidConfig cfg)
    (coord : Int) (hc : 0 ≤ coord) :
    decodeGroups cfg.max_children (cfg.fanout_coord coord) = coord.toNat := by
  by_cases h0 : coord = 0
  · subst h0
    rw [FanoutChunkKeyEncoding.fanout_coord, if_pos rfl]
    show cfg.max_children * 0 + parseDecimal (pyZeros cfg.decimal_len) = 0
    rw [parseDecimal_pyZeros]
    simp
  · rw [FanoutChunkKeyEncoding.fanout_coord, if_neg h0]
    exact decode_fanout_nat cfg.max_children cfg.decimal_len
      (validConfig_two_le cfg hv) coord.toNat

theorem fanout_coord_groups (cfg : FanoutChunkKeyEncoding) (hv : ValidConfig cfg)
    (coord : Int) :
    ∀ g ∈ cfg.fanout_coord coord,
      g.length = cfg.decimal_len ∧ parseDecimal g ≤ cfg.max_children - 1 ∧
        ∀ c ∈ g.data, c.isDigit = true := by
  obtain ⟨hpow, hdl⟩ := validConfig_inv cfg hv
  have hmc := validConfig_two_le cfg hv
  intro g hg
  by_cases h0 : coord = 0
  · subst h0
    rw [FanoutChunkKeyEncoding.fanout_coord, if_pos rfl] at hg
    simp only [List.mem_singleton] at hg
    subst hg
    refine ⟨pyZeros_length cfg.decimal_len, ?_, ?_⟩
    · rw [parseDecimal_pyZeros]; omega
    · intro c hc
      replace hc : c ∈ List.replicate cfg.decimal_len '0' := hc
      rw [List.eq_of_mem_replicate hc]; decide
  · rw [FanoutChunkKeyEncoding.fanout_coord, if_neg h0, List.mem_reverse] at hg
    obtain ⟨v, hvlt, rfl⟩ :=
      fanout_nat_shape cfg.max_children cfg.decimal_len hmc coord.toNat g hg
    have hvpow : v < 10 ^ cfg.decimal_len := by rw [← hpow]; exact hvlt
    refine ⟨pyZeroPad_length cfg.decimal_len v
      (pyStrLen_le v cfg.decimal_len (by omega) hvpow), ?_,
      pyZeroPad_isDigit cfg.decimal_len v⟩
    rw [parseDecimal_pyZeroPad]
    omega

theorem fanout_coord_ne_nil (cfg : FanoutChunkKeyEncoding) (hv : ValidConfig cfg)
    (coord : Int) (hc : 0 ≤ coord) :
    cfg.fanout_coord coord ≠ [] := by
  by_cases h0 : coord = 0
  · subst h0
    rw [FanoutChunkKeyEncoding.fanout_coord, if_pos rfl]
    simp
  · rw [FanoutChunkKeyEncoding.fanout_coord, if_neg h0]
    have hne : coord.toNat ≠ 0 := by omega
    simp only [ne_eq, List.reverse_eq_nil_iff]
    exact fanout_nat_ne_nil cfg.max_children cfg.decimal_len
      (validConfig_two_le cfg hv) coord.toNat hne

/-- A string that does not contain the path separator character. -/
def SlashFree (s : String) : Prop := '/' ∉ s.data

theorem slashFree_of_digits (s : String) (h : ∀ c ∈ s.data, c.isDigit = true) :
    SlashFree s := by
  intro hc
  have h2 := h '/' hc
  exact absurd h2 (by decide)

theorem slashFree_pyStr (n : Nat) : SlashFree (pyStr n) :=
  slashFree_of_digits _ (pyStr_isDigit n)

theorem append_sep_inj : ∀ (a b x y : List Char), '/' ∉ a → '/' ∉ b →
    a ++ '/' :: x = b ++ '/' :: y → a = b ∧ x = y := by
  intro a
  induction a with
  | nil =>
    intro b x y _ha hb h
    cases b with
    | nil => simpa using h
    | cons c b' =>
      simp only [List.nil_append, List.cons_append, List.cons.injEq] at h
      exfalso
      apply hb
      rw [← h.1]
      exact List.mem_cons_self _ _
  | cons c a' ih =>
    intro b x y ha hb h
    cases b with
    | nil =>
      simp only [List.cons_append, List.nil_append, List.cons.injEq] at h
      exfalso
      apply ha
      rw [h.1]
      exact List.mem_cons_self _ _
    | cons c' b' =>
      simp only [List.cons_append, List.cons.injEq] at h
      obtain ⟨hc, ht⟩ := h
      obtain ⟨h1, h2⟩ := ih b' x y
        (fun hm => ha (List.mem_cons_of_mem c hm))
        (fun hm => hb (List.mem_cons_of_mem c' hm)) ht
      exact ⟨by rw [hc, h1], h2⟩

theorem data_append_sep (s t : String) :
    (s ++ "/" ++ t).data = s.data ++ '/' :: t.data := by
  have hsep : ("/" : String).data = ['/'] := rfl
  simp [String.data_append, hsep]

theorem strJoin_slash_inj : ∀ (p₁ p₂ : List String),
    p₁ ≠ [] → p₂ ≠ [] →
    (∀ s ∈ p₁, SlashFree s) → (∀ s ∈ p₂, SlashFree s) →
    strJoin "/" p₁ = strJoin "/" p₂ → p₁ = p₂ := by
  intro p₁
  induction p₁ with
  | nil => intro p₂ h₁ _ _ _ _; exact absurd rfl h₁
  | cons s₁ r₁ ih =>
    intro p₂ _h₁ h₂ hf₁ hf₂ h
    have hs₁ : SlashFree s₁ := hf₁ s₁ (List.mem_cons_self s₁ r₁)
    cases p₂ with
    | nil => exact absurd rfl h₂
    | cons s₂ r₂ =>
      have hs₂ : SlashFree s₂ := hf₂ s₂ (List.mem_cons_self s₂ r₂)
      cases r₁ with
      | nil =>
        cases r₂ with
        | nil =>
          have hss : s₁ = s₂ := h
          rw [hss]
        | cons t₂ r₂' =>
          exfalso
          have hd := congrArg String.data h
          rw [show strJoin "/" [s₁] = s₁ from rfl,
            show strJoin "/" (s₂ :: t₂ :: r₂') =
              s₂ ++ "/" ++ strJoin "/" (t₂ :: r₂') from rfl,
            data_append_sep] at hd
          apply hs₁
          rw [hd]
          simp
      | cons t₁ r₁' =>
        cases r₂ with
        | nil =>
          exfalso
          have hd := congrArg String.data h
          rw [show strJoin "/" (s₁ :: t₁ :: r₁') =
              s₁ ++ "/" ++ strJoin "/" (t₁ :: r₁') from rfl,
            show strJoin "/" [s₂] = s₂ from rfl, data_append_sep] at hd
          apply hs₂
          rw [← hd]
          simp
        | cons t₂ r₂' =>
          have hd := congrArg String.data h
          rw [show strJoin "/" (s₁ :: t₁ :: r₁') =
              s₁ ++ "/" ++ strJoin "/" (t₁ :: r₁') from rfl,
            show strJoin "/" (s₂ :: t₂ :: r₂') =
              s₂ ++ "/" ++ strJoin "/" (t₂ :: r₂') from rfl,
            data_append_sep, data_append_sep] at hd
          obtain ⟨hde, hdj⟩ := append_sep_inj s₁.data s₂.data _ _ hs₁ hs₂ hd
          have hse : s₁ = s₂ := String.ext hde
          have hje : strJoin "/" (t₁ :: r₁') = strJoin "/" (t₂ :: r₂') :=
            String.ext hdj
          have hre : t₁ :: r₁' = t₂ :: r₂' :=
            ih (t₂ :: r₂') (by simp) (by simp)
              (fun s hs => hf₁ s (List.mem_cons_of_mem s₁ hs))
              (fun s hs => hf₂ s (List.mem_cons_of_mem s₂ hs)) hje
          rw [hse, hre]

theorem encode_foldl (cfg : FanoutChunkKeyEncoding) :
    ∀ (coords : List Int) (init : List String),
      coords.foldl
        (fun parts coord =>
          let coords := cfg.fanout_coord coord
          parts ++ [pyStrInt ((coords.length : Int) - 1)] ++ coords)
        init
      = init ++ (coords.map (dimSegments cfg)).flatten := by
  intro coords
  induction coords with
  | nil => intro init; simp
  | cons c cs ih =>
    intro init
    rw [List.foldl_cons, ih]
    simp [dimSegments, List.append_assoc]

theorem encode_eq_specAssemble (cfg : FanoutChunkKeyEncoding) (coords : List Int) :
    cfg.encode_chunk_key coords = specAssemble cfg coords := by
  simp only [FanoutChunkKeyEncoding.encode_chunk_key, encode_foldl, specAssemble,
    List.singleton_append]

theorem dimSegments_slashFree (cfg : FanoutChunkKeyEncoding) (hv : ValidConfig cfg)
    (coord : Int) (hc : 0 ≤ coord) :
    ∀ s ∈ dimSegments cfg coord, SlashFree s := by
  intro s hs
  rw [dimSegments] at hs
  rcases List.mem_cons.mp hs with h | h
  · subst h
    have hne := fanout_coord_ne_nil cfg hv coord hc
    have hlen : 1 ≤ (cfg.fanout_coord coord).length := List.length_pos.mpr hne
    have hcast : ((cfg.fanout_coord coord).length : Int) - 1 =
        (((cfg.fanout_coord coord).length - 1 : Nat) : Int) := by omega
    rw [hcast]
    show SlashFree (pyStr ((cfg.fanout_coord coord).length - 1))
    exact slashFree_pyStr _
  · exact slashFree_of_digits s (fanout_coord_groups cfg hv coord s h).2.2

theorem segments_slashFree (cfg : FanoutChunkKeyEncoding) (hv : ValidConfig cfg)
    (xs : List Int) (hx : ∀ x ∈ xs, 0 ≤ x) :
    ∀ s ∈ ("c" :: (xs.map (dimSegments cfg)).flatten), SlashFree s := by
  intro s hs
  rcases List.mem_cons.mp hs with h | h
  · subst h
    intro hmem
    exact absurd hmem (by decide)
  · obtain ⟨l, hl, hsl⟩ := List.mem_flatten.mp h
    obtain ⟨x, hxm, rfl⟩ := List.mem_map.mp hl
    exact dimSegments_slashFree cfg hv x (hx x hxm) s hsl

theorem marker_inj (cfg : FanoutChunkKeyEncoding) (hv : ValidConfig cfg)
    (x y : Int) (hx : 0 ≤ x) (hy : 0 ≤ y)
    (h : pyStrInt (((cfg.fanout_coord x).length : Int) - 1) =
      pyStrInt (((cfg.fanout_coord y).length : Int) - 1)) :
    (cfg.fanout_coord x).length = (cfg.fanout_coord y).length := by
  have hlx : 1 ≤ (cfg.fanout_coord x).length :=
    List.length_pos.mpr (fanout_coord_ne_nil cfg hv x hx)
  have hly : 1 ≤ (cfg.fanout_coord y).length :=
    List.length_pos.mpr (fanout_coord_ne_nil cfg hv y hy)
  have hcx : ((cfg.fanout_coord x).length : Int) - 1 =
      (((cfg.fanout_coord x).length - 1 : Nat) : Int) := by omega
  have hcy : ((cfg.fanout_coord y).length : Int) - 1 =
      (((cfg.fanout_coord y).length - 1 : Nat) : Int) := by omega
  rw [hcx, hcy] at h
  have h2 : pyStr ((cfg.fanout_coord x).length - 1) =
      pyStr ((cfg.fanout_coord y).length - 1) := h
  have h3 := pyStr_injective h2
  omega

theorem dims_flatten_inj (cfg : FanoutChunkKeyEncoding) (hv : ValidConfig cfg) :
    ∀ (xs ys : List Int), (∀ x ∈ xs, 0 ≤ x) → (∀ y ∈ ys, 0 ≤ y) →
      (xs.map (dimSegments cfg)).flatten = (ys.map (dimSegments cfg)).flatten →
      xs = ys := by
  intro xs
  induction xs with
  | nil =>
    intro ys _ _hy h
    cases ys with
    | nil => rfl
    | cons y ys' =>
      rw [List.map_nil, List.flatten_nil, List.map_cons, List.flatten_cons,
        dimSegments, List.cons_append] at h
      exact absurd h (by simp)
  | cons x xs' ih =>
    intro ys hx hy h
    cases ys with
    | nil =>
      rw [List.map_cons, List.flatten_cons, List.map_nil, List.flatten_nil,
        dimSegments, List.cons_append] at h
      exact absurd h (by simp)
    | cons y ys' =>
      rw [List.map_cons, List.flatten_cons, List.map_cons, List.flatten_cons,
        dimSegments, dimSegments, List.cons_append, List.cons_append] at h
      injection h with hm ht
      have hx0 : 0 ≤ x := hx x (List.mem_cons_self x xs')
      have hy0 : 0 ≤ y := hy y (List.mem_cons_self y ys')
      have hlen := marker_inj cfg hv x y hx0 hy0 hm
      obtain ⟨hg, hr⟩ := List.append_inj ht hlen
      have hxy : x = y := by
        have hdx := decode_fanout_coord cfg hv x hx0
        have hdy := decode_fanout_coord cfg hv y hy0
        rw [hg] at hdx
        omega
      rw [hxy]
      congr 1
      exact ih ys' (fun a ha => hx a (List.mem_cons_of_mem x ha))
        (fun a ha => hy a (List.mem_cons_of_mem y ha)) hr

theorem iter_div_eq_zero (mc : Nat) (hmc : 2 ≤ mc) :
    ∀ k n, n ≤ k → (fun c => c / mc)^[k] n = 0 := by
  intro k
  induction k with
  | zero =>
    intro n h
    have hn : n = 0 := by omega
    subst hn
    simp
  | succ k ih =>
    intro n h
    rw [Function.iterate_succ_apply]
    have hle : n / mc ≤ k := by
      by_cases hn : n = 0
      · subst hn; simp
      · have h2 := Nat.div_lt_self (Nat.pos_of_ne_zero hn) hmc
        omega
    exact ih (n / mc) hle

theorem encode_neg (cfg : FanoutChunkKeyEncoding) (c : Int) (h : c < 0) :
    cfg.fanout_coord c = [] ∧ cfg.encode_chunk_key [c] = "c/-1" := by
  have h0 : c ≠ 0 := by omega
  have htn : c.toNat = 0 := by omega
  have hfc : cfg.fanout_coord c = [] := by
    rw [FanoutChunkKeyEncoding.fanout_coord, if_neg h0, htn]
    rfl
  refine ⟨hfc, ?_⟩
  rw [encode_eq_specAssemble, specAssemble]
  simp only [List.map_cons, List.map_nil, List.flatten_cons, List.flatten_nil,
    List.append_nil, dimSegments, hfc]
  decide

/-- C1: for every configuration and coordinate list, `encode_chunk_key`
returns the '/'-joined string that starts with the literal segment "c"
followed, for each dimension in input order, by that dimension's depth
marker and digit groups (the spec-side assembly `specAssemble`); the empty
tuple encodes to exactly "c"; and with `max_children = 1000` (digit width 3)
the tuple (1234, 5, 67890) encodes to "c/1/001/234/0/005/1/067/890". -/
theorem claim_C1_assembly (cfg : FanoutChunkKeyEncoding) (coords : List Int) :
    cfg.encode_chunk_key coords = specAssemble cfg coords ∧
    cfg.encode_chunk_key [] = "c" ∧
    (⟨1000⟩ : FanoutChunkKeyEncoding).encode_chunk_key [1234, 5, 67890] =
      "c/1/001/234/0/005/1/067/890" :=
  ⟨encode_eq_specAssemble cfg coords, rfl, by decide⟩

/-- C2: for a fixed valid configuration, `encode_chunk_key` is injective on
coordinate tuples of non-negative integers, including tuples of different
lengths. -/
theorem claim_C2_injective (cfg : FanoutChunkKeyEncoding) (hv : ValidConfig cfg)
    (xs ys : List Int) (hx : ∀ x ∈ xs, 0 ≤ x) (hy : ∀ y ∈ ys, 0 ≤ y)
    (h : cfg.encode_chunk_key xs = cfg.encode_chunk_key ys) : xs = ys := by
  rw [encode_eq_specAssemble, encode_eq_specAssemble, specAssemble, specAssemble] at h
  have hsegs := strJoin_slash_inj ("c" :: (xs.map (dimSegments cfg)).flatten)
    ("c" :: (ys.map (dimSegments cfg)).flatten) (by simp) (by simp)
    (segments_slashFree cfg hv xs hx) (segments_slashFree cfg hv ys hy) h
  injection hsegs with _ hflat
  exact dims_flatten_inj cfg hv xs ys hx hy hflat

/-- Witness for C2 at the configuration with `max_children = 1000`. -/
theorem claim_C2_injective_witness :
    ValidConfig ⟨1000⟩ ∧ ([(3 : Int), 7] = [(3 : Int), 7]) :=
  ⟨⟨1000, false, rfl⟩,
    claim_C2_injective ⟨1000⟩ ⟨1000, false, rfl⟩ [3, 7] [3, 7]
      (by decide) (by decide) rfl⟩

/-- C3: for every valid configuration and non-negative component, the digit
groups of `_fanout_coord` form the most-significant-first base-`max_children`
positional expansion of the component (Horner-decoding them recovers the
component losslessly), and every group is a decimal string of exactly
`decimal_len` characters whose numeric value is at most `max_children - 1`. -/
theorem claim_C3_digit_groups (cfg : FanoutChunkKeyEncoding) (hv : ValidConfig cfg)
    (coord : Int) (hc : 0 ≤ coord) :
    decodeGroups cfg.max_children (cfg.fanout_coord coord) = coord.toNat ∧
    ∀ g ∈ cfg.fanout_coord coord,
      g.length = cfg.decimal_len ∧ parseDecimal g ≤ cfg.max_children - 1 ∧
        ∀ c ∈ g.data, c.isDigit = true :=
  ⟨decode_fanout_coord cfg hv coord hc, fanout_coord_groups cfg hv coord⟩

/-- Witness for C3 at `max_children = 1000`, component 1234567. -/
theorem claim_C3_digit_groups_witness :
    ValidConfig ⟨1000⟩ ∧ (0 : Int) ≤ 1234567 ∧
    (decodeGroups 1000 ((⟨1000⟩ : FanoutChunkKeyEncoding).fanout_coord 1234567) =
        (1234567 : Int).toNat ∧
      ∀ g ∈ (⟨1000⟩ : FanoutChunkKeyEncoding).fanout_coord 1234567,
        g.length = (⟨1000⟩ : FanoutChunkKeyEncoding).decimal_len ∧
          parseDecimal g ≤ 1000 - 1 ∧ ∀ c ∈ g.data, c.isDigit = true) :=
  ⟨⟨1000, false, rfl⟩, by decide,
    claim_C3_digit_groups ⟨1000⟩ ⟨1000, false, rfl⟩ 1234567 (by decide)⟩

/-- C4: for every integer below 100, construction fails with the
`ValueError` and no configuration object is produced. -/
theorem claim_C4_validation_floor (n : Int) (h : n < 100) :
    mkFanoutChunkKeyEncoding n = .error "max_children must be at least 100." ∧
    ∀ cfg w, mkFanoutChunkKeyEncoding n ≠ .ok (cfg, w) := by
  have he : mkFanoutChunkKeyEncoding n =
      .error "max_children must be at least 100." := by
    rw [mkFanoutChunkKeyEncoding, if_pos h]
  exact ⟨he, fun cfg w hok => Except.noConfusion (he.symm.trans hok)⟩

/-- Witness for C4 at `max_children = 99`. -/
theorem claim_C4_validation_floor_witness :
    (99 : Int) < 100 ∧
    (mkFanoutChunkKeyEncoding 99 = .error "max_children must be at least 100." ∧
      ∀ cfg w, mkFanoutChunkKeyEncoding 99 ≠ .ok (cfg, w)) :=
  ⟨by decide, claim_C4_validation_floor 99 (by decide)⟩

/-- C5: for every integer at least 100 construction succeeds, the stored
`max_children` is 10 to the power of the digit count of the input minus
one — stated through the equivalent form `10 ^ Nat.log 10 n` together with
the digit-count identity `pyStrLen n = Nat.log 10 n + 1` — and the advisory
signal fires exactly when the input differs from the floored value. -/
theorem claim_C5_flooring (n : Int) (h : 100 ≤ n) :
    mkFanoutChunkKeyEncoding n =
      .ok (⟨10 ^ Nat.log 10 n.toNat⟩,
        n != ((10 ^ Nat.log 10 n.toNat : Nat) : Int)) ∧
    pyStrLen n.toNat = Nat.log 10 n.toNat + 1 ∧
    ∀ w : Bool,
      mkFanoutChunkKeyEncoding n = .ok (⟨10 ^ Nat.log 10 n.toNat⟩, w) →
        (w = true ↔ n ≠ ((10 ^ Nat.log 10 n.toNat : Nat) : Int)) := by
  have hnot : ¬ n < 100 := by omega
  have hmk : mkFanoutChunkKeyEncoding n =
      .ok (⟨10 ^ Nat.log 10 n.toNat⟩,
        n != ((10 ^ Nat.log 10 n.toNat : Nat) : Int)) := by
    rw [mkFanoutChunkKeyEncoding, if_neg hnot]
    show Except.ok ((⟨10 ^ (pyStrLen n.toNat - 1)⟩ : FanoutChunkKeyEncoding),
        n != ((10 ^ (pyStrLen n.toNat - 1) : Nat) : Int)) = _
    rw [show pyStrLen n.toNat - 1 = Nat.log 10 n.toNat from by
      simp [pyStrLen_eq_log]]
  refine ⟨hmk, by rw [pyStrLen_eq_log], fun w hw => ?_⟩
  have heq := hmk.symm.trans hw
  simp only [Except.ok.injEq, Prod.mk.injEq] at heq
  rw [← heq.2]
  exact bne_iff_ne

/-- Witness for C5: 1234 floors to 1000 with a signal; 1000 is kept with no
signal. -/
theorem claim_C5_flooring_witness :
    (100 : Int) ≤ 1234 ∧
    mkFanoutChunkKeyEncoding 1234 = .ok (⟨1000⟩, true) ∧
    mkFanoutChunkKeyEncoding 1000 = .ok (⟨1000⟩, false) := by
  have hlog : Nat.log 10 (1234 : Int).toNat = 3 :=
    Nat.log_eq_of_pow_le_of_lt_pow (by decide) (by decide)
  have h := (claim_C5_flooring 1234 (by decide)).1
  rw [hlog, show ((10 : Nat) ^ 3) = 1000 from by norm_num,
    show ((1234 : Int) != ((1000 : Nat) : Int)) = true from by decide] at h
  exact ⟨by decide, h, rfl⟩

/-- C6: a zero coordinate component yields exactly one digit group — the
string of `decimal_len` zero characters, not zero groups. -/
theorem claim_C6_zero_component (cfg : FanoutChunkKeyEncoding) :
    cfg.fanout_coord 0 = [pyZeros cfg.decimal_len] ∧
    (cfg.fanout_coord 0).length = 1 ∧
    (pyZeros cfg.decimal_len).length = cfg.decimal_len ∧
    ∀ c ∈ (pyZeros cfg.decimal_len).data, c = '0' := by
  refine ⟨rfl, rfl, pyZeros_length _, fun c hc => ?_⟩
  exact List.eq_of_mem_replicate hc

/-- C7: for every valid configuration the per-component expansion loop of
`_fanout_coord` terminates: any fuel at least the starting value yields the
completed-loop result, and iterating division by the base from any starting
value reaches 0 within that many steps, so encoding is a total function. -/
theorem claim_C7_termination (cfg : FanoutChunkKeyEncoding) (hv : ValidConfig cfg)
    (n fuel : Nat) (hf : n ≤ fuel) :
    fanoutLoop cfg.max_children cfg.decimal_len fuel n =
      fanout_nat cfg.max_children cfg.decimal_len n ∧
    (fun c => c / cfg.max_children)^[n] n = 0 := by
  have hmc := validConfig_two_le cfg hv
  exact ⟨fanoutLoop_fuel_eq cfg.max_children cfg.decimal_len hmc fuel n n hf
      (le_refl n),
    iter_div_eq_zero cfg.max_children hmc n n (le_refl n)⟩

/-- Witness for C7 at `max_children = 1000`, component 5, fuel 77. -/
theorem claim_C7_termination_witness :
    ValidConfig ⟨1000⟩ ∧ (5 : Nat) ≤ 77 ∧
    (fanoutLoop 1000 3 77 5 = fanout_nat 1000 3 5 ∧
      (fun c => c / 1000)^[5] 5 = 0) :=
  ⟨⟨1000, false, rfl⟩, by decide,
    claim_C7_termination ⟨1000⟩ ⟨1000, false, rfl⟩ 5 77 (by decide)⟩

/-- C8: serializing a valid configuration with `to_dict` and deserializing
with `from_dict` reconstructs the same configuration with no advisory
signal, hence identical keys for identical coordinates. -/
theorem claim_C8_round_trip (n : Int) (cfg : FanoutChunkKeyEncoding) (w : Bool)
    (h : mkFanoutChunkKeyEncoding n = .ok (cfg, w)) :
    cfg.to_dict = ⟨"fanout", some (cfg.max_children : Int)⟩ ∧
    fanout_from_dict cfg.to_dict = .ok (cfg, false) ∧
    ∀ cfg' w', fanout_from_dict cfg.to_dict = .ok (cfg', w') →
      ∀ coords, cfg'.encode_chunk_key coords = cfg.encode_chunk_key coords := by
  have hv : ValidConfig cfg := ⟨n, w, h⟩
  obtain ⟨hpow, hdl⟩ := validConfig_inv cfg hv
  have h100 : 100 ≤ cfg.max_children := by
    have h2 := Nat.pow_le_pow_right (show 0 < 10 by norm_num) hdl
    omega
  have hrt : fanout_from_dict cfg.to_dict = .ok (cfg, false) := by
    show mkFanoutChunkKeyEncoding (cfg.max_children : Int) = .ok (cfg, false)
    rw [mkFanoutChunkKeyEncoding,
      if_neg (show ¬ ((cfg.max_children : Int) < 100) by omega)]
    show Except.ok
        ((⟨10 ^ (pyStrLen ((cfg.max_children : Int)).toNat - 1)⟩ :
            FanoutChunkKeyEncoding),
          (cfg.max_children : Int) !=
            ((10 ^ (pyStrLen ((cfg.max_children : Int)).toNat - 1) : Nat) : Int)) =
      Except.ok (cfg, false)
    have htn : ((cfg.max_children : Int)).toNat = cfg.max_children := by omega
    have hexp : pyStrLen ((cfg.max_children : Int)).toNat - 1 = cfg.decimal_len := by
      rw [htn, hpow, pyStrLen_eq_log, Nat.log_pow (by norm_num)]
      omega
    rw [hexp, ← hpow,
      show (⟨cfg.max_children⟩ : FanoutChunkKeyEncoding) = cfg from rfl,
      bne_self_eq_false]
  refine ⟨rfl, hrt, fun cfg' w' h' coords => ?_⟩
  rw [hrt] at h'
  simp only [Except.ok.injEq, Prod.mk.injEq] at h'
  rw [← h'.1]

/-- Witness for C8 at `max_children = 1000`. -/
theorem claim_C8_round_trip_witness :
    mkFanoutChunkKeyEncoding 1000 = .ok (⟨1000⟩, false) ∧
    fanout_from_dict (FanoutChunkKeyEncoding.to_dict ⟨1000⟩) = .ok (⟨1000⟩, false) :=
  ⟨rfl, (claim_C8_round_trip 1000 ⟨1000⟩ false rfl).2.1⟩

/-- C9: in the `fanout_cke.py` implementation a negative component yields no
digit groups (`_fanout_coord` returns the empty list), so the dimension gets
the depth marker "-1" with zero groups; every 1-d negative coordinate
encodes to the joined two-segment key of "c" and "-1", and hence all
negative component values collide. -/
theorem claim_C9_negative (cfg : FanoutChunkKeyEncoding) (c : Int) (h : c < 0) :
    cfg.fanout_coord c = [] ∧ cfg.encode_chunk_key [c] = "c/-1" ∧
    ∀ c' : Int, c' < 0 → cfg.encode_chunk_key [c'] = cfg.encode_chunk_key [c] := by
  obtain ⟨h1, h2⟩ := encode_neg cfg c h
  exact ⟨h1, h2, fun c' h' => ((encode_neg cfg c' h').2).trans h2.symm⟩

/-- Witness for C9 at `max_children = 1000`, component -7. -/
theorem claim_C9_negative_witness :
    (-7 : Int) < 0 ∧
    ((⟨1000⟩ : FanoutChunkKeyEncoding).fanout_coord (-7) = [] ∧
      (⟨1000⟩ : FanoutChunkKeyEncoding).encode_chunk_key [-7] = "c/-1" ∧
      ∀ c' : Int, c' < 0 →
        (⟨1000⟩ : FanoutChunkKeyEncoding).encode_chunk_key [c'] =
          (⟨1000⟩ : FanoutChunkKeyEncoding).encode_chunk_key [-7]) :=
  ⟨by decide, claim_C9_negative ⟨1000⟩ (-7) (by decide)⟩

/-- C10: the two source definitions disagree on the default configuration:
the `__init__.py` class stores its default 1001 as-is (construction is the
identity, with no validation, flooring or signal, although 1001 is not a
power of 10), while the `fanout_cke.py` class defaults to 1000 and emits no
signal. -/
theorem claim_C10_default_divergence :
    mkInitFanoutDefault.max_children = 1001 ∧
    (∀ n : Int, mkInitFanout n = ⟨n⟩) ∧
    (∀ k : Nat, (1001 : Nat) ≠ 10 ^ k) ∧
    mkFanoutDefault = .ok (⟨1000⟩, false) := by
  refine ⟨rfl, fun n => rfl, fun k => ?_, rfl⟩
  match k with
  | 0 => decide
  | 1 => decide
  | 2 => decide
  | 3 => decide
  | k + 4 =>
    intro hk
    have h4 : (10 : Nat) ^ 4 ≤ 10 ^ (k + 4) :=
      Nat.pow_le_pow_right (by norm_num) (by omega)
    omega

end ZarrFanoutCke
